import Mathlib

/-!
Shallow embedding of the incremental document indexing and retrieval
pipeline of src/rag_chatbot.py (class RAGChatbot), together with the
results of checking the specification claims against it.

External collaborators are modelled as explicit inputs rather than
effects: the Chroma collection is a list of records, the scanned
documents folder is a list of per-file observations (basename, content
fingerprint, extracted text), the embedder is dropped (its vectors are
written and read only by the external store), and the Gemini call is an
Except-valued outcome supplied by the caller.  Python strings are
modelled as lists of characters where indexing matters and as String
where only equality matters; float distance comparisons against the
literal thresholds 0.3 and 0.7 are modelled over the rationals, which
agrees with the float comparisons at every magnitude the code produces.
-/

namespace RAGChatbot

/-- One record of the Chroma collection "documents": the id, the stored
document text and the metadata mapping written by add_document
(source, chunk_id, file_hash).  The embedding vector is produced and
consumed only by the external embedder and store, so it is not part of
the model. -/
structure ChunkRec where
  id : String
  text : List Char
  source : String
  chunk_id : Nat
  file_hash : String
  deriving DecidableEq

/-- The metadata mapping of one result row, as read back from the store. -/
structure ChunkMeta where
  source : String
  chunk_id : Nat
  file_hash : String
  deriving DecidableEq

/-- The per-query slice of a Chroma query result: the code always indexes
the outer batch dimension with [0], so documents, metadatas, distances
and ids here are the inner parallel lists. -/
structure QueryResult where
  documents : List (List Char)
  metadatas : List ChunkMeta
  distances : List ℚ
  ids : List String
  deriving DecidableEq

/-- A file seen by one auto_index_documents scan: its basename, the md5
fingerprint of its raw bytes (get_file_hash, computed externally), and
the text the PDF/TXT extractor returns for it (empty on extraction
failure, exactly as extract_text_from_pdf / extract_text_from_txt fail
soft with ""). -/
structure FileInfo where
  name : String
  hash : String
  text : List Char
  deriving DecidableEq

/-- The mutable state of a RAGChatbot instance: the collection contents
and the processed_files set (a list used only through membership). -/
structure BotState where
  store : List ChunkRec
  processed_files : List String
  deriving DecidableEq

/-! ### Chunker (chunk_text, lines 80-89)

The Python while-loop is modelled with explicit fuel; one unit of fuel
is one loop iteration.  `none` means the loop did not finish within the
given fuel.  The update `start = end - overlap` is Nat subtraction; for
every call the code makes (overlap < size, hence overlap < start + size)
this agrees with Python integer arithmetic. -/

def chunkLoop : Nat → List Char → Nat → Nat → Nat → Option (List (List Char))
  | 0, text, _, _, start => if start < text.length then none else some []
  | fuel + 1, text, size, overlap, start =>
    if start < text.length then
      match chunkLoop fuel text size overlap (start + size - overlap) with
      | some rest => some ((text.drop start).take size :: rest)
      | none => none
    else some []

/-- chunk_text with explicit size and overlap.  Fuel text.length is
enough for every terminating run: the start advances by at least one per
iteration when overlap < size, so at most text.length iterations occur. -/
def chunk_text (text : List Char) (size overlap : Nat) : Option (List (List Char)) :=
  chunkLoop text.length text size overlap 0

/-- chunk_text at its Python default arguments (size 1000, overlap 200),
as called by add_document. -/
def chunk_textD (text : List Char) : List (List Char) :=
  (chunk_text text 1000 200).getD []

/-- The while-loop of chunk_text terminates on this input: some fuel
bound suffices. -/
def chunkTerminates (text : List Char) (size overlap : Nat) : Prop :=
  ∃ fuel, (chunkLoop fuel text size overlap 0).isSome = true

/-! ### Fallback lexical matcher (_fuzzy_search, lines 214-261) -/

/-- Python str.split() on a character list: split on runs of whitespace,
producing no empty words.  The accumulator holds the current word in
reverse. -/
def splitWsAux : List Char → List Char → List (List Char)
  | [], acc => if acc = [] then [] else [acc.reverse]
  | c :: rest, acc =>
    if c.isWhitespace then
      if acc = [] then splitWsAux rest []
      else acc.reverse :: splitWsAux rest []
    else splitWsAux rest (c :: acc)

def splitWs (l : List Char) : List (List Char) := splitWsAux l []

/-- The character-set similarity test of _fuzzy_search:
len(set(w) & set(d)) / len(set(w) | set(d)) > 0.7.  Python sets of
characters are modelled by dedup lists; the float division compared
against 0.7 is modelled exactly over the integers
(common / total > 7/10  iff  10 * common > 7 * total), which agrees
with the double comparison at these magnitudes. -/
def charJaccardGT (w d : List Char) : Bool :=
  let common := (w.dedup.filter (fun c => decide (c ∈ d))).length
  let total := ((w ++ d).dedup).length
  7 * total < 10 * common

/-- The match score of one stored chunk against the query words: for
each query word longer than 3, one point for every word of the
lower-cased chunk text that is longer than 3 and passes the character
similarity test. -/
def chunkScore (query_words : List (List Char)) (doc : List Char) : Nat :=
  let words_in_doc := splitWs (doc.map Char.toLower)
  (query_words.map (fun w =>
    if 3 < w.length then
      words_in_doc.countP (fun dw =>
        decide (3 < w.length) && decide (3 < dw.length) && charJaccardGT w dw)
    else 0)).sum

/-- The single-row result dict _fuzzy_search builds for one accepted
chunk: its text, its stored metadata, the synthetic distance 0.2 and its
id. -/
def mkFuzzyMatch (c : ChunkRec) : QueryResult :=
  { documents := [c.text]
    metadatas := [⟨c.source, c.chunk_id, c.file_hash⟩]
    distances := [(0.2 : ℚ)]
    ids := [c.id] }

/-- The scan loop of _fuzzy_search over the stored chunks (collection
order): append a match for every chunk with positive score, and break as
soon as the accumulated matches reach n_results. -/
def fuzzyLoop (query_words : List (List Char)) (n_results : Nat) :
    List ChunkRec → List QueryResult → List QueryResult
  | [], best => best
  | c :: rest, best =>
    let best1 := if 0 < chunkScore query_words c.text then best ++ [mkFuzzyMatch c] else best
    if n_results ≤ best1.length then best1
    else fuzzyLoop query_words n_results rest best1

/-- _fuzzy_search: None when the collection is empty, otherwise the
first accumulated match (the code returns best_matches[0]) or None when
no chunk scored.  The try/except wrapper never fires in this pure
model. -/
def fuzzy_search (store : List ChunkRec) (query : List Char) (n_results : Nat) :
    Option QueryResult :=
  if store = [] then none
  else
    let query_words := splitWs (query.map Char.toLower)
    (fuzzyLoop query_words n_results store []).head?

/-! ### Semantic search gate (search_documents / _is_low_similarity,
lines 189-212) -/

/-- _is_low_similarity: with a nonempty result set, every distance
exceeds the 0.3 threshold; an empty result set counts as low
similarity. -/
def is_low_similarity (results : QueryResult) : Bool :=
  if results.documents ≠ [] then
    results.distances.all (fun d => decide ((0.3 : ℚ) < d))
  else true

/-- The fallback condition of search_documents:
not results['documents'][0] or _is_low_similarity(results). -/
def searchUsesFallback (results : QueryResult) : Bool :=
  results.documents.isEmpty || is_low_similarity results

/-- search_documents: the semantic result (an input here: embedding the
query and running the top-k store query are external calls) is replaced
by the fuzzy fallback exactly when the fallback condition holds and the
fallback finds something; otherwise it is returned as-is. -/
def search_documents (store : List ChunkRec) (query : List Char)
    (semantic : QueryResult) (n_results : Nat) : QueryResult :=
  if searchUsesFallback semantic then
    match fuzzy_search store query n_results with
    | some m => m
    | none => semantic
  else semantic

/-! ### Indexer (auto_index_documents and helpers, lines 105-187) -/

/-- Python set insertion for the membership-list model of a set:
appends the element when it is not already present. -/
def insertOnce (l : List String) (x : String) : List String :=
  if x ∈ l then l else l ++ [x]

/-- get_stored_file_hash: the file_hash metadata of the first stored
record with the given source and chunk_id 0, or "" when there is
none. -/
def get_stored_file_hash (store : List ChunkRec) (filename : String) : String :=
  match store.find? (fun c => c.source == filename && c.chunk_id == 0) with
  | some c => c.file_hash
  | none => ""

/-- remove_document: delete every record whose source metadata is the
filename (the code collects their ids and deletes by id; Chroma ids are
unique, so this is deletion of exactly those records). -/
def remove_document (store : List ChunkRec) (filename : String) : List ChunkRec :=
  store.filter (fun c => !(c.source == filename))

/-- The records add_document builds from the parallel comprehensions
ids / metadatas / chunks indexed by range(len(chunks)). -/
def mkChunkRecs (text : List Char) (filename : String) (file_hash : String) :
    List ChunkRec :=
  let chunks := chunk_textD text
  (List.range chunks.length).map (fun i =>
    { id := filename ++ "_" ++ toString i
      text := chunks.getD i []
      source := filename
      chunk_id := i
      file_hash := file_hash })

/-- add_document: chunk with the default parameters, embed (external,
dropped), and append the new records to the collection. -/
def add_document (store : List ChunkRec) (text : List Char) (filename : String)
    (file_hash : String) : List ChunkRec :=
  store ++ mkChunkRecs text filename file_hash

/-- The state reached by the updated-file branch of the loop body:
remove the old chunks, insert the new ones, record the filename. -/
def updState (s : BotState) (f : FileInfo) : BotState :=
  ⟨add_document (remove_document s.store f.name) f.text f.name f.hash,
   insertOnce s.processed_files f.name⟩

/-- The state reached by the new-file branch of the loop body: insert
the chunks and record the filename. -/
def newState (s : BotState) (f : FileInfo) : BotState :=
  ⟨add_document s.store f.text f.name f.hash,
   insertOnce s.processed_files f.name⟩

/-- One iteration of the auto_index_documents loop (lines 117-144) on
file f, threading the new_files and updated_files accumulators.  The
progress callback is a pure notification and does not appear. -/
def auto_index_step (s : BotState) (f : FileInfo) (new upd : List String) :
    BotState × List String × List String :=
  if f.name ∉ s.processed_files ∨ get_stored_file_hash s.store f.name ≠ f.hash then
    if f.text ≠ [] then
      if f.name ∈ s.processed_files then (updState s f, new, upd ++ [f.name])
      else (newState s f, new ++ [f.name], upd)
    else (s, new, upd)
  else (s, new, upd)

/-- The whole scan loop of auto_index_documents. -/
def auto_index_loop : List FileInfo → BotState → List String → List String →
    BotState × List String × List String
  | [], s, new, upd => (s, new, upd)
  | f :: rest, s, new, upd =>
    let r := auto_index_step s f new upd
    auto_index_loop rest r.1 r.2.1 r.2.2

/-- auto_index_documents: with an empty scan it returns the single empty
list (line 112); otherwise it runs the loop and returns the pair
(new_files, updated_files).  The two different return shapes are made
explicit in the sum type. -/
def auto_index_documents (s : BotState) (files : List FileInfo) :
    BotState × (List String ⊕ List String × List String) :=
  if files = [] then (s, Sum.inl [])
  else
    let r := auto_index_loop files s [] []
    (r.1, Sum.inr (r.2.1, r.2.2))

/-! ### Answer assembler (generate_response / chat, lines 263-342) -/

/-- The sources set built by the chat loop, represented canonically as
the list of distinct source values in order of first appearance among
the retrieved chunks.  Python iterates metadatas in parallel with
documents by index. -/
def sourcesOf (results : QueryResult) : List String :=
  ((results.documents.zip results.metadatas).map (fun p => p.2.source)).foldl
    insertOnce []

/-- The context block chat accumulates: "From {source}:\n{doc}\n\n" per
retrieved chunk. -/
def contextOf (results : QueryResult) : String :=
  (results.documents.zip results.metadatas).foldl
    (fun acc p => acc ++ "From " ++ p.2.source ++ ":\n" ++ String.mk p.1 ++ "\n\n") ""

/-- generate_response: the Gemini call is external, its outcome an input
(the model text, or the exception text).  The code returns the model
text on success and the in-band string "Error generating response: {e}"
on failure.  Note that the prompt interpolates only the query; the
context argument is unused in the source. -/
def generate_response (query context : String) (gen : Except String String) : String :=
  match gen with
  | Except.ok t => t
  | Except.error e => "Error generating response: " ++ e

/-- chat: search (with the internal fallback), bail out with the fixed
message when nothing was retrieved, otherwise build context and sources,
generate, and append the Sources trailer when the sources set is
nonempty.  setOrder models the iteration order of the Python set in
', '.join(sources): string hashing is randomized per process, so the
order is an unspecified arrangement of the set elements, supplied here
as an explicit parameter. -/
def chat (store : List ChunkRec) (query : List Char) (semantic : QueryResult)
    (gen : Except String String) (setOrder : List String → List String) : String :=
  let search_results := search_documents store query semantic 3
  if search_results.documents = [] then
    "I don't have any documents to search through. Please upload some documents first."
  else
    let context := contextOf search_results
    let sources := sourcesOf search_results
    let response := generate_response (String.mk query) context gen
    if sources = [] then response
    else response ++ "\n\nSources: " ++ String.intercalate ", " (setOrder sources)

/-! ### Invariants used by the indexing claims -/

/-- The processed_files set agrees with the sources present in the
store.  get_processed_files establishes exactly this at construction
time (lines 38-48). -/
def StoreConsistent (s : BotState) : Prop :=
  ∀ n : String, n ∈ s.processed_files ↔ ∃ c ∈ s.store, c.source = n

/-- A scanned file the loop body leaves alone: either it is recorded
with its current fingerprint, or its extraction comes back empty. -/
def FileInert (s : BotState) (f : FileInfo) : Prop :=
  (f.name ∈ s.processed_files ∧ get_stored_file_hash s.store f.name = f.hash) ∨
    f.text = []

/-! ## Helper lemmas -/

/-! ### Chunker lemmas -/

lemma chunkLoop_spec (text : List Char) (size overlap : Nat) (h : overlap < size) :
    ∀ fuel start, text.length - start ≤ fuel * (size - overlap) →
      chunkLoop fuel text size overlap start =
        some ((List.range
            ((text.length - start + (size - overlap) - 1) / (size - overlap))).map
          (fun i => (text.drop (start + i * (size - overlap))).take size)) := by
  intro fuel
  induction fuel with
  | zero =>
    intro start hle
    have hge : ¬ start < text.length := by omega
    have h0 : text.length - start = 0 := by omega
    have hdiv : (text.length - start + (size - overlap) - 1) / (size - overlap) = 0 := by
      rw [h0]
      exact Nat.div_eq_of_lt (by omega)
    simp [chunkLoop, hge, hdiv]
  | succ fuel ih =>
    intro start hle
    by_cases hlt : start < text.length
    · have hs : 0 < size - overlap := by omega
      have hmul : (fuel + 1) * (size - overlap) = fuel * (size - overlap) + (size - overlap) :=
        Nat.succ_mul _ _
      have hrec : text.length - (start + (size - overlap)) ≤ fuel * (size - overlap) := by
        omega
      have harg : start + size - overlap = start + (size - overlap) := by omega
      rw [chunkLoop, if_pos hlt, harg, ih (start + (size - overlap)) hrec]
      have hc : (text.length - start + (size - overlap) - 1) / (size - overlap) =
          (text.length - (start + (size - overlap)) + (size - overlap) - 1) /
            (size - overlap) + 1 := by
        have e1 : text.length - start + (size - overlap) - 1 =
            (text.length - start - 1) + (size - overlap) := by omega
        have e2 : (text.length - start - 1) / (size - overlap) =
            (text.length - (start + (size - overlap)) + (size - overlap) - 1) /
              (size - overlap) := by
          rcases le_or_lt (size - overlap) (text.length - start) with hge2 | hlt2
          · congr 1
            omega
          · have e3 : text.length - (start + (size - overlap)) = 0 := by omega
            rw [e3, Nat.div_eq_of_lt (by omega), Nat.div_eq_of_lt (by omega)]
        rw [e1, Nat.add_div_right _ hs, e2]
      rw [hc, List.range_succ_eq_map, List.map_cons, List.map_map]
      refine congrArg some ?_
      congr 1
      · simp
      · refine List.map_congr_left ?_
        intro i _
        have hsm : Nat.succ i * (size - overlap) = i * (size - overlap) + (size - overlap) :=
          Nat.succ_mul _ _
        have : start + Nat.succ i * (size - overlap) =
            start + (size - overlap) + i * (size - overlap) := by omega
        simp [Function.comp, this]
    · have h0 : text.length - start = 0 := by omega
      have hdiv : (text.length - start + (size - overlap) - 1) / (size - overlap) = 0 := by
        rw [h0]
        exact Nat.div_eq_of_lt (by omega)
      simp [chunkLoop, hlt, hdiv]

lemma chunk_text_eq (text : List Char) (size overlap : Nat) (h : overlap < size) :
    chunk_text text size overlap =
      some ((List.range ((text.length + (size - overlap) - 1) / (size - overlap))).map
        (fun i => (text.drop (i * (size - overlap))).take size)) := by
  have hfuel : text.length - 0 ≤ text.length * (size - overlap) :=
    le_trans (by omega) (Nat.le_mul_of_pos_right _ (by omega))
  have := chunkLoop_spec text size overlap h text.length 0 hfuel
  simpa [chunk_text] using this

lemma chunk_textD_eq (text : List Char) :
    chunk_textD text =
      (List.range ((text.length + 799) / 800)).map
        (fun i => (text.drop (i * 800)).take 1000) := by
  have h := chunk_text_eq text 1000 200 (by norm_num)
  norm_num at h
  simp [chunk_textD, h]

lemma chunk_textD_ne_nil (text : List Char) (h : text ≠ []) : chunk_textD text ≠ [] := by
  rw [chunk_textD_eq]
  have hl : 0 < text.length := List.length_pos.mpr h
  have hpos : 0 < (text.length + 799) / 800 := Nat.div_pos (by omega) (by norm_num)
  simp only [ne_eq, List.map_eq_nil_iff, List.range_eq_nil]
  omega

/-! ### Generic list lemmas -/

lemma find?_filter_of_imp {α : Type} (l : List α) (p q : α → Bool)
    (h : ∀ x, p x = true → q x = true) :
    (l.filter q).find? p = l.find? p := by
  induction l with
  | nil => rfl
  | cons a t ih =>
    by_cases hq : q a = true
    · rw [List.filter_cons_of_pos hq]
      by_cases hp : p a = true
      · rw [List.find?_cons_of_pos _ hp, List.find?_cons_of_pos _ hp]
      · rw [List.find?_cons_of_neg _ hp, List.find?_cons_of_neg _ hp, ih]
    · have hp : ¬ p a = true := fun hpa => hq (h a hpa)
      rw [List.filter_cons_of_neg hq, List.find?_cons_of_neg _ hp, ih]

lemma head?_filter_eq_find? {α : Type} (p : α → Bool) (l : List α) :
    (l.filter p).head? = l.find? p := by
  induction l with
  | nil => rfl
  | cons a t ih =>
    by_cases h : p a = true
    · rw [List.filter_cons_of_pos h, List.find?_cons_of_pos _ h]
      rfl
    · rw [List.filter_cons_of_neg h, List.find?_cons_of_neg _ h, ih]

lemma head?_append_cons {α : Type} (l t₁ t₂ : List α) (a : α) :
    (l ++ (a :: t₁)).head? = (l ++ (a :: t₂)).head? := by
  cases l <;> rfl

lemma head?_append_of_ne_nil {α : Type} (l t : List α) (h : l ≠ []) :
    (l ++ t).head? = l.head? := by
  cases l with
  | nil => exact absurd rfl h
  | cons a l => rfl

/-! ### Fallback matcher lemmas -/

lemma fuzzyLoop_head (qw : List (List Char)) (k : Nat) (hk : 1 ≤ k) :
    ∀ (store : List ChunkRec) (best : List QueryResult),
      (fuzzyLoop qw k store best).head? =
        (best ++ (store.filter (fun c => decide (0 < chunkScore qw c.text))).map
          mkFuzzyMatch).head? := by
  intro store
  induction store with
  | nil => intro best; simp [fuzzyLoop]
  | cons c rest ih =>
    intro best
    by_cases hsc : 0 < chunkScore qw c.text
    · rw [show fuzzyLoop qw k (c :: rest) best =
          (if k ≤ (best ++ [mkFuzzyMatch c]).length then best ++ [mkFuzzyMatch c]
           else fuzzyLoop qw k rest (best ++ [mkFuzzyMatch c])) by
        simp [fuzzyLoop, hsc]]
      rw [List.filter_cons_of_pos (by simpa using hsc), List.map_cons]
      by_cases hlen : k ≤ (best ++ [mkFuzzyMatch c]).length
      · rw [if_pos hlen]
        exact head?_append_cons best [] _ (mkFuzzyMatch c)
      · rw [if_neg hlen, ih (best ++ [mkFuzzyMatch c])]
        simp
    · rw [show fuzzyLoop qw k (c :: rest) best =
          (if k ≤ best.length then best else fuzzyLoop qw k rest best) by
        simp [fuzzyLoop, hsc]]
      rw [List.filter_cons_of_neg (by simpa using hsc)]
      by_cases hlen : k ≤ best.length
      · rw [if_pos hlen]
        have hne : best ≠ [] := by
          intro hb
          rw [hb] at hlen
          simp at hlen
          omega
        rw [head?_append_of_ne_nil best _ hne]
      · rw [if_neg hlen, ih best]

lemma fuzzy_search_eq_find? (store : List ChunkRec) (query : List Char) (k : Nat)
    (hk : 1 ≤ k) :
    fuzzy_search store query k =
      (store.find? (fun c =>
        decide (0 < chunkScore (splitWs (query.map Char.toLower)) c.text))).map
        mkFuzzyMatch := by
  by_cases hst : store = []
  · simp [fuzzy_search, hst]
  · rw [fuzzy_search, if_neg hst]
    rw [fuzzyLoop_head _ k hk store []]
    rw [List.nil_append, List.head?_map, head?_filter_eq_find?]

/-! ### Indexer lemmas: the stored hash under store edits -/

lemma mkChunkRecs_source (text : List Char) (n h : String) :
    ∀ c ∈ mkChunkRecs text n h, c.source = n := by
  intro c hc
  simp only [mkChunkRecs, List.mem_map, List.mem_range] at hc
  obtain ⟨i, _, rfl⟩ := hc
  rfl

lemma mkChunkRecs_ne_nil (text : List Char) (n h : String) (htext : text ≠ []) :
    mkChunkRecs text n h ≠ [] := by
  have := chunk_textD_ne_nil text htext
  simp only [mkChunkRecs, ne_eq, List.map_eq_nil_iff, List.range_eq_nil,
    List.length_eq_zero]
  exact this

lemma remove_document_source (store : List ChunkRec) (n : String) :
    ∀ c ∈ remove_document store n, c.source ≠ n := by
  intro c hc
  simp only [remove_document, List.mem_filter, Bool.not_eq_true', beq_eq_false_iff_ne,
    ne_eq] at hc
  exact hc.2

lemma stored_hash_append_right (l₁ l₂ : List ChunkRec) (n : String)
    (h : ∀ c ∈ l₂, c.source ≠ n) :
    get_stored_file_hash (l₁ ++ l₂) n = get_stored_file_hash l₁ n := by
  unfold get_stored_file_hash
  rw [List.find?_append]
  cases hf : l₁.find? (fun c => c.source == n && c.chunk_id == 0) with
  | some c => rfl
  | none =>
    have h2 : l₂.find? (fun c => c.source == n && c.chunk_id == 0) = none := by
      rw [List.find?_eq_none]
      intro c hc
      simp [h c hc]
    simp [h2]

lemma stored_hash_remove (store : List ChunkRec) (n m : String) (h : m ≠ n) :
    get_stored_file_hash (remove_document store n) m = get_stored_file_hash store m := by
  unfold get_stored_file_hash remove_document
  rw [find?_filter_of_imp]
  intro c hc
  simp only [Bool.and_eq_true, beq_iff_eq] at hc
  simp [hc.1, h]

lemma stored_hash_add_self (store : List ChunkRec) (text : List Char) (n hsh : String)
    (hstore : ∀ c ∈ store, c.source ≠ n) (htext : text ≠ []) :
    get_stored_file_hash (store ++ mkChunkRecs text n hsh) n = hsh := by
  unfold get_stored_file_hash
  rw [List.find?_append]
  have h1 : store.find? (fun c => c.source == n && c.chunk_id == 0) = none := by
    rw [List.find?_eq_none]
    intro c hc
    simp [hstore c hc]
  rw [h1, Option.none_or]
  obtain ⟨m, hm⟩ : ∃ m, (chunk_textD text).length = m + 1 := by
    cases hcl : chunk_textD text with
    | nil => exact absurd hcl (chunk_textD_ne_nil text htext)
    | cons a t => exact ⟨t.length, by simp⟩
  rw [mkChunkRecs]
  rw [show (chunk_textD text).length = m + 1 from hm]
  rw [List.range_succ_eq_map, List.map_cons]
  rw [List.find?_cons_of_pos _ (by simp)]

/-! ### Indexer lemmas: consistency and inertness across the loop -/

lemma insertOnce_mem (l : List String) (x a : String) :
    a ∈ insertOnce l x ↔ a ∈ l ∨ a = x := by
  unfold insertOnce
  by_cases h : x ∈ l
  · rw [if_pos h]
    constructor
    · exact Or.inl
    · rintro (ha | rfl)
      · exact ha
      · exact h
  · rw [if_neg h]
    simp

lemma consistent_updState (s : BotState) (f : FileInfo) (htext : f.text ≠ [])
    (hc : StoreConsistent s) : StoreConsistent (updState s f) := by
  intro m
  rw [updState]
  simp only [add_document, insertOnce_mem, List.mem_append]
  constructor
  · rintro (hm | rfl)
    · by_cases hmn : m = f.name
      · subst hmn
        obtain ⟨c, hc1, -⟩ :
            ∃ c ∈ mkChunkRecs f.text f.name f.hash, c.source = f.name := by
          obtain ⟨c, hcm⟩ := List.exists_mem_of_ne_nil _
            (mkChunkRecs_ne_nil f.text f.name f.hash htext)
          exact ⟨c, hcm, mkChunkRecs_source f.text f.name f.hash c hcm⟩
        exact ⟨c, Or.inr hc1, mkChunkRecs_source f.text f.name f.hash c hc1⟩
      · obtain ⟨c, hc1, hc2⟩ := (hc m).mp hm
        refine ⟨c, Or.inl ?_, hc2⟩
        simp only [remove_document, List.mem_filter]
        exact ⟨hc1, by simp [hc2, hmn]⟩
    · obtain ⟨c, hcm⟩ := List.exists_mem_of_ne_nil _
        (mkChunkRecs_ne_nil f.text f.name f.hash htext)
      exact ⟨c, Or.inr hcm, mkChunkRecs_source f.text f.name f.hash c hcm⟩
  · rintro ⟨c, hc1 | hc2, hsrc⟩
    · have : c ∈ s.store := List.mem_of_mem_filter hc1
      exact Or.inl ((hc m).mpr ⟨c, this, hsrc⟩)
    · right
      rw [← hsrc]
      exact mkChunkRecs_source f.text f.name f.hash c hc2

lemma consistent_newState (s : BotState) (f : FileInfo) (htext : f.text ≠ [])
    (hc : StoreConsistent s) : StoreConsistent (newState s f) := by
  intro m
  rw [newState]
  simp only [add_document, insertOnce_mem, List.mem_append]
  constructor
  · rintro (hm | rfl)
    · obtain ⟨c, hc1, hc2⟩ := (hc m).mp hm
      exact ⟨c, Or.inl hc1, hc2⟩
    · obtain ⟨c, hcm⟩ := List.exists_mem_of_ne_nil _
        (mkChunkRecs_ne_nil f.text f.name f.hash htext)
      exact ⟨c, Or.inr hcm, mkChunkRecs_source f.text f.name f.hash c hcm⟩
  · rintro ⟨c, hc1 | hc2, hsrc⟩
    · exact Or.inl ((hc m).mpr ⟨c, hc1, hsrc⟩)
    · right
      rw [← hsrc]
      exact mkChunkRecs_source f.text f.name f.hash c hc2

lemma inert_after_updState (s : BotState) (f : FileInfo) (htext : f.text ≠ []) :
    FileInert (updState s f) f := by
  left
  constructor
  · rw [updState]
    simp [insertOnce_mem]
  · rw [updState]
    exact stored_hash_add_self _ f.text f.name f.hash
      (remove_document_source s.store f.name) htext

lemma inert_after_newState (s : BotState) (f : FileInfo) (htext : f.text ≠ [])
    (hnm : f.name ∉ s.processed_files) (hc : StoreConsistent s) :
    FileInert (newState s f) f := by
  left
  constructor
  · rw [newState]
    simp [insertOnce_mem]
  · rw [newState]
    refine stored_hash_add_self _ f.text f.name f.hash ?_ htext
    intro c hcm hsrc
    exact hnm ((hc f.name).mpr ⟨c, hcm, hsrc⟩)

lemma inert_preserved_updState (s : BotState) (f g : FileInfo) (hne : g.name ≠ f.name)
    (h : FileInert s g) : FileInert (updState s f) g := by
  rcases h with ⟨hmem, hhash⟩ | htext
  · left
    refine ⟨by rw [updState]; exact (insertOnce_mem _ _ _).mpr (Or.inl hmem), ?_⟩
    rw [updState]
    show get_stored_file_hash
      (remove_document s.store f.name ++ mkChunkRecs f.text f.name f.hash) g.name = g.hash
    rw [stored_hash_append_right _ _ _ (by
      intro c hcm
      rw [mkChunkRecs_source f.text f.name f.hash c hcm]
      exact fun hx => hne hx.symm)]
    rw [stored_hash_remove s.store f.name g.name hne]
    exact hhash
  · exact Or.inr htext

lemma inert_preserved_newState (s : BotState) (f g : FileInfo) (hne : g.name ≠ f.name)
    (h : FileInert s g) : FileInert (newState s f) g := by
  rcases h with ⟨hmem, hhash⟩ | htext
  · left
    refine ⟨by rw [newState]; exact (insertOnce_mem _ _ _).mpr (Or.inl hmem), ?_⟩
    rw [newState]
    show get_stored_file_hash
      (s.store ++ mkChunkRecs f.text f.name f.hash) g.name = g.hash
    rw [stored_hash_append_right _ _ _ (by
      intro c hcm
      rw [mkChunkRecs_source f.text f.name f.hash c hcm]
      exact fun hx => hne hx.symm)]
    exact hhash
  · exact Or.inr htext

/-! ### Indexer lemmas: the loop -/

lemma step_of_inert (s : BotState) (f : FileInfo) (new upd : List String)
    (h : FileInert s f) : auto_index_step s f new upd = (s, new, upd) := by
  rcases h with ⟨hmem, hhash⟩ | htext
  · have hcond : ¬ (f.name ∉ s.processed_files ∨
        get_stored_file_hash s.store f.name ≠ f.hash) := by
      push_neg
      exact ⟨hmem, hhash⟩
    rw [auto_index_step, if_neg hcond]
  · rw [auto_index_step]
    by_cases hcond : f.name ∉ s.processed_files ∨
        get_stored_file_hash s.store f.name ≠ f.hash
    · rw [if_pos hcond, if_neg (by simp [htext])]
    · rw [if_neg hcond]

lemma step_of_empty_text (s : BotState) (f : FileInfo) (new upd : List String)
    (htext : f.text = []) : auto_index_step s f new upd = (s, new, upd) :=
  step_of_inert s f new upd (Or.inr htext)

lemma loop_of_inert_all :
    ∀ (files : List FileInfo) (s : BotState) (new upd : List String),
      (∀ f ∈ files, FileInert s f) → auto_index_loop files s new upd = (s, new, upd)
  | [], _, _, _, _ => rfl
  | f :: rest, s, new, upd, h => by
    rw [auto_index_loop]
    rw [step_of_inert s f new upd (h f (List.mem_cons_self f rest))]
    exact loop_of_inert_all rest s new upd (fun g hg => h g (List.mem_cons_of_mem f hg))

/-- The central invariant of one auto_index_documents run: starting from
a consistent state, the loop keeps the state consistent, preserves
inertness of files whose name it never touches, and leaves every scanned
file inert (recorded with its current fingerprint, or empty-extraction). -/
lemma auto_index_loop_good :
    ∀ (files : List FileInfo) (s : BotState) (new upd : List String),
      StoreConsistent s → (files.map FileInfo.name).Nodup →
      StoreConsistent (auto_index_loop files s new upd).1 ∧
      (∀ g : FileInfo, FileInert s g → g.name ∉ files.map FileInfo.name →
        FileInert (auto_index_loop files s new upd).1 g) ∧
      (∀ f ∈ files, FileInert (auto_index_loop files s new upd).1 f)
  | [], s, new, upd, hc, _ => by
    refine ⟨hc, fun g hg _ => hg, ?_⟩
    intro f hf
    exact absurd hf (List.not_mem_nil f)
  | f :: rest, s, new, upd, hc, hnodup => by
    have hnodup' : (rest.map FileInfo.name).Nodup := by
      simpa using hnodup.of_cons
    have hfnotin : f.name ∉ rest.map FileInfo.name := by
      have := hnodup
      rw [List.map_cons, List.nodup_cons] at this
      exact this.1
    by_cases htext : f.text = []
    · -- extraction failed: the step is the identity, and f is inert forever
      rw [auto_index_loop, step_of_empty_text s f new upd htext]
      obtain ⟨ih1, ih2, ih3⟩ := auto_index_loop_good rest s new upd hc hnodup'
      refine ⟨ih1, ?_, ?_⟩
      · intro g hg hgn
        exact ih2 g hg (fun hx => hgn (by simp [hx]))
      · intro f' hf'
        rcases List.mem_cons.mp hf' with rfl | hf'
        · exact Or.inr htext
        · exact ih3 f' hf'
    · by_cases hcond : f.name ∉ s.processed_files ∨
          get_stored_file_hash s.store f.name ≠ f.hash
      · by_cases hmem : f.name ∈ s.processed_files
        · -- updated file
          have hstep : auto_index_step s f new upd = (updState s f, new, upd ++ [f.name]) := by
            rw [auto_index_step, if_pos hcond, if_pos htext, if_pos hmem]
          rw [auto_index_loop, hstep]
          have hc' : StoreConsistent (updState s f) := consistent_updState s f htext hc
          obtain ⟨ih1, ih2, ih3⟩ := auto_index_loop_good rest (updState s f)
            new (upd ++ [f.name]) hc' hnodup'
          refine ⟨ih1, ?_, ?_⟩
          · intro g hg hgn
            have hgne : g.name ≠ f.name := fun hx => hgn (by simp [hx])
            exact ih2 g (inert_preserved_updState s f g hgne hg)
              (fun hx => hgn (by simp [hx]))
          · intro f' hf'
            rcases List.mem_cons.mp hf' with rfl | hf'
            · exact ih2 f' (inert_after_updState s f' htext) hfnotin
            · exact ih3 f' hf'
        · -- new file
          have hstep : auto_index_step s f new upd = (newState s f, new ++ [f.name], upd) := by
            rw [auto_index_step, if_pos hcond, if_pos htext, if_neg hmem]
          rw [auto_index_loop, hstep]
          have hc' : StoreConsistent (newState s f) := consistent_newState s f htext hc
          obtain ⟨ih1, ih2, ih3⟩ := auto_index_loop_good rest (newState s f)
            (new ++ [f.name]) upd hc' hnodup'
          refine ⟨ih1, ?_, ?_⟩
          · intro g hg hgn
            have hgne : g.name ≠ f.name := fun hx => hgn (by simp [hx])
            exact ih2 g (inert_preserved_newState s f g hgne hg)
              (fun hx => hgn (by simp [hx]))
          · intro f' hf'
            rcases List.mem_cons.mp hf' with rfl | hf'
            · exact ih2 f' (inert_after_newState s f' htext hmem hc) hfnotin
            · exact ih3 f' hf'
      · -- unchanged file
        have hinert : FileInert s f := by
          push_neg at hcond
          exact Or.inl ⟨hcond.1, hcond.2⟩
        rw [auto_index_loop, step_of_inert s f new upd hinert]
        obtain ⟨ih1, ih2, ih3⟩ := auto_index_loop_good rest s new upd hc hnodup'
        refine ⟨ih1, ?_, ?_⟩
        · intro g hg hgn
          exact ih2 g hg (fun hx => hgn (by simp [hx]))
        · intro f' hf'
          rcases List.mem_cons.mp hf' with rfl | hf'
          · exact ih2 f' hinert hfnotin
          · exact ih3 f' hf'

/-! ### Chat lemmas -/

lemma sourcesOf_ne_nil (rs : QueryResult) (hne : rs.documents ≠ [])
    (hpar : rs.documents.length ≤ rs.metadatas.length) : sourcesOf rs ≠ [] := by
  have hlen : ∀ (l : List String) (acc : List String),
      acc.length ≤ (l.foldl insertOnce acc).length := by
    intro l
    induction l with
    | nil => intro acc; exact le_refl _
    | cons x t ih =>
      intro acc
      refine le_trans ?_ (ih (insertOnce acc x))
      unfold insertOnce
      by_cases h : x ∈ acc
      · rw [if_pos h]
      · rw [if_neg h]
        simp
  obtain ⟨d, ds, hd⟩ := List.exists_cons_of_ne_nil hne
  obtain ⟨m, ms, hm⟩ : ∃ m ms, rs.metadatas = m :: ms := by
    cases hmm : rs.metadatas with
    | nil =>
      rw [hd, hmm] at hpar
      simp at hpar
    | cons m ms => exact ⟨m, ms, rfl⟩
  unfold sourcesOf
  rw [hd, hm]
  simp only [List.zip_cons_cons, List.map_cons, List.foldl_cons]
  intro hfold
  have h1 := hlen ((List.zip ds ms).map (fun p => p.2.source)) (insertOnce [] m.source)
  rw [hfold] at h1
  simp [insertOnce] at h1

lemma chat_appends_trailer (store : List ChunkRec) (query : List Char)
    (semantic : QueryResult) (gen : Except String String)
    (setOrder : List String → List String)
    (hne : (search_documents store query semantic 3).documents ≠ [])
    (hpar : (search_documents store query semantic 3).documents.length ≤
      (search_documents store query semantic 3).metadatas.length) :
    chat store query semantic gen setOrder =
      generate_response (String.mk query) (contextOf (search_documents store query semantic 3))
        gen ++ "\n\nSources: " ++
        String.intercalate ", " (setOrder (sourcesOf (search_documents store query semantic 3))) := by
  have hsrc : sourcesOf (search_documents store query semantic 3) ≠ [] :=
    sourcesOf_ne_nil _ hne hpar
  rw [chat]
  simp only [if_neg hne, if_neg hsrc]

lemma chunkLoop_stuck : ∀ fuel, chunkLoop fuel ['a'] 1 1 0 = none
  | 0 => by simp [chunkLoop]
  | fuel + 1 => by
    rw [chunkLoop]
    rw [if_pos (by simp)]
    rw [show 0 + 1 - 1 = 0 from rfl, chunkLoop_stuck fuel]

/-! ## The claims -/

/-- C5: chunk with size 1000 and overlap 200 produces the consecutive
windows text[start : start + 1000] whose start advances by
size − overlap = 800 each step, stopping once start ≥ length text (the
window count is the ceiling of length/800), windows being truncated at
the text end; a text of length 2500 yields exactly 4 chunks at offsets
0, 800, 1600, 2400 (the final one truncated to 100 characters), and
empty text yields the empty sequence. -/
theorem chunk_text_windows (text : List Char) :
    chunk_text text 1000 200 =
      some ((List.range ((text.length + 799) / 800)).map
        (fun i => (text.drop (i * 800)).take 1000)) ∧
    chunk_text ([] : List Char) 1000 200 = some [] ∧
    chunk_text (List.replicate 2500 'a') 1000 200 =
      some [List.replicate 1000 'a', List.replicate 1000 'a',
            List.replicate 900 'a', List.replicate 100 'a'] := by
  have hmain : ∀ t : List Char, chunk_text t 1000 200 =
      some ((List.range ((t.length + 799) / 800)).map
        (fun i => (t.drop (i * 800)).take 1000)) := by
    intro t
    have h := chunk_text_eq t 1000 200 (by norm_num)
    norm_num at h
    exact h
  refine ⟨hmain text, rfl, ?_⟩
  rw [hmain (List.replicate 2500 'a')]
  norm_num
  rw [show List.range 4 = [0, 1, 2, 3] from rfl]
  norm_num [Nat.min_def]

/-- C6 counterexample: chunk_text has no guard for overlap ≥ size: with
size = overlap = 1 the window start never advances (start = end − overlap
stays 0) and the while-loop never terminates on the one-character text,
whatever iteration bound is allowed. -/
theorem chunk_no_guard_diverges : ¬ chunkTerminates ['a'] 1 1 := by
  rintro ⟨fuel, h⟩
  rw [chunkLoop_stuck fuel] at h
  simp at h

/-- C6 (amended): chunk_text does not reject overlap ≥ size (see the
counterexample); what holds is that under the invariant overlap < size —
satisfied by the only call site, add_document with 1000/200 — every call
terminates: the start strictly advances by size − overlap per iteration,
so text.length iterations of fuel always suffice. -/
theorem chunk_terminates_of_overlap_lt (text : List Char) (size overlap : Nat)
    (h : overlap < size) :
    (chunk_text text size overlap).isSome = true ∧
      chunkTerminates text size overlap := by
  have hspec := chunk_text_eq text size overlap h
  refine ⟨by rw [hspec]; rfl, ⟨text.length, ?_⟩⟩
  rw [show chunkLoop text.length text size overlap 0 = chunk_text text size overlap
    from rfl, hspec]
  rfl

/-- Witness for chunk_terminates_of_overlap_lt at size 2, overlap 1 on a
two-character text. -/
theorem chunk_terminates_of_overlap_lt_witness :
    (1 : Nat) < 2 ∧
    ((chunk_text ['a', 'b'] 2 1).isSome = true ∧ chunkTerminates ['a', 'b'] 2 1) :=
  ⟨by decide, chunk_terminates_of_overlap_lt ['a', 'b'] 2 1 (by decide)⟩

/-- C4 counterexample: with two stored chunks that both score positively
against the query "wxyz" and k = 3, _fuzzy_search returns a result
holding a single chunk (the code returns best_matches[0]), not the first
min(3, 2) = 2 matching chunks the claim demands. -/
theorem fuzzy_search_not_first_k :
    (fuzzy_search
        [⟨"a.txt_0", ['w', 'x', 'y', 'z'], "a.txt", 0, "h"⟩,
         ⟨"b.txt_0", ['w', 'x', 'y', 'z'], "b.txt", 0, "h"⟩]
        ['w', 'x', 'y', 'z'] 3).map (fun r => r.documents.length) = some 1 ∧
    min 3 (([⟨"a.txt_0", ['w', 'x', 'y', 'z'], "a.txt", 0, "h"⟩,
         ⟨"b.txt_0", ['w', 'x', 'y', 'z'], "b.txt", 0, "h"⟩] : List ChunkRec).filter
        (fun c => decide (0 < chunkScore (splitWs (['w', 'x', 'y', 'z'].map Char.toLower))
          c.text))).length = 2 := by
  decide

/-- C4 (amended): for k ≥ 1, _fuzzy_search returns the single first
chunk with positive score in collection scan order, wrapped as a
one-row result with the fixed synthetic distance 0.2 (the scan stops
after accumulating k candidates, but only best_matches[0] is returned);
it returns None exactly when the store is empty or no chunk scores above
zero. -/
theorem fuzzy_search_first_match (store : List ChunkRec) (query : List Char) (k : Nat)
    (hk : 1 ≤ k) :
    fuzzy_search store query k =
      (store.find? (fun c =>
        decide (0 < chunkScore (splitWs (query.map Char.toLower)) c.text))).map
        mkFuzzyMatch ∧
    (fuzzy_search store query k = none ↔
      store = [] ∨
        ∀ c ∈ store, chunkScore (splitWs (query.map Char.toLower)) c.text = 0) := by
  have h1 := fuzzy_search_eq_find? store query k hk
  refine ⟨h1, ?_⟩
  rw [h1, Option.map_eq_none', List.find?_eq_none]
  constructor
  · intro h
    right
    intro c hc
    have h2 := h c hc
    simp at h2
    exact h2
  · rintro (rfl | h) c hc
    · exact absurd hc (List.not_mem_nil c)
    · simp [h c hc]

/-- Witness for fuzzy_search_first_match on a one-chunk store and k = 3. -/
theorem fuzzy_search_first_match_witness :
    (1 : Nat) ≤ 3 ∧
    (fuzzy_search [⟨"a.txt_0", ['w', 'x', 'y', 'z'], "a.txt", 0, "h"⟩]
        ['w', 'x', 'y', 'z'] 3 =
      (([⟨"a.txt_0", ['w', 'x', 'y', 'z'], "a.txt", 0, "h"⟩] : List ChunkRec).find?
        (fun c => decide (0 < chunkScore
          (splitWs (['w', 'x', 'y', 'z'].map Char.toLower)) c.text))).map
        mkFuzzyMatch ∧
    (fuzzy_search [⟨"a.txt_0", ['w', 'x', 'y', 'z'], "a.txt", 0, "h"⟩]
        ['w', 'x', 'y', 'z'] 3 = none ↔
      ([⟨"a.txt_0", ['w', 'x', 'y', 'z'], "a.txt", 0, "h"⟩] : List ChunkRec) = [] ∨
        ∀ c ∈ ([⟨"a.txt_0", ['w', 'x', 'y', 'z'], "a.txt", 0, "h"⟩] : List ChunkRec),
          chunkScore (splitWs (['w', 'x', 'y', 'z'].map Char.toLower)) c.text = 0)) :=
  ⟨by decide, fuzzy_search_first_match _ _ 3 (by decide)⟩

/-- C3: search_documents invokes the fuzzy fallback iff the semantic
result set is empty or every returned distance exceeds 0.3; and whenever
some returned distance is at most 0.3 (distances being parallel to
documents, as a store query guarantees) the semantic result is returned
as-is, without the fallback. -/
theorem search_fallback_gate (store : List ChunkRec) (query : List Char)
    (semantic : QueryResult) (k : Nat)
    (hpar : semantic.distances.length = semantic.documents.length) :
    (searchUsesFallback semantic = true ↔
      semantic.documents = [] ∨ ∀ d ∈ semantic.distances, (0.3 : ℚ) < d) ∧
    ((∃ d ∈ semantic.distances, d ≤ (0.3 : ℚ)) →
      search_documents store query semantic k = semantic) := by
  have hgate : searchUsesFallback semantic = true ↔
      semantic.documents = [] ∨ ∀ d ∈ semantic.distances, (0.3 : ℚ) < d := by
    unfold searchUsesFallback is_low_similarity
    by_cases hd : semantic.documents = []
    · simp [hd]
    · simp [hd, List.all_eq_true]
  refine ⟨hgate, ?_⟩
  rintro ⟨d, hd, hle⟩
  have hdocs : semantic.documents ≠ [] := by
    intro h0
    rw [h0, List.length_nil, List.length_eq_zero] at hpar
    rw [hpar] at hd
    exact absurd hd (List.not_mem_nil d)
  have hfalse : ¬ searchUsesFallback semantic = true := by
    rw [hgate]
    push_neg
    exact ⟨hdocs, d, hd, hle⟩
  rw [search_documents, if_neg hfalse]

/-- Witness for search_fallback_gate at a one-row high-confidence
semantic result (distance 0.2 ≤ 0.3). -/
theorem search_fallback_gate_witness :
    (QueryResult.distances ⟨[['a']], [⟨"a.txt", 0, "h"⟩], [(0.2 : ℚ)], ["a.txt_0"]⟩).length =
      (QueryResult.documents ⟨[['a']], [⟨"a.txt", 0, "h"⟩], [(0.2 : ℚ)], ["a.txt_0"]⟩).length ∧
    ((searchUsesFallback ⟨[['a']], [⟨"a.txt", 0, "h"⟩], [(0.2 : ℚ)], ["a.txt_0"]⟩ = true ↔
      (QueryResult.documents ⟨[['a']], [⟨"a.txt", 0, "h"⟩], [(0.2 : ℚ)], ["a.txt_0"]⟩) = [] ∨
        ∀ d ∈ (QueryResult.distances ⟨[['a']], [⟨"a.txt", 0, "h"⟩], [(0.2 : ℚ)], ["a.txt_0"]⟩),
          (0.3 : ℚ) < d) ∧
    ((∃ d ∈ (QueryResult.distances ⟨[['a']], [⟨"a.txt", 0, "h"⟩], [(0.2 : ℚ)], ["a.txt_0"]⟩),
        d ≤ (0.3 : ℚ)) →
      search_documents [] ['q'] ⟨[['a']], [⟨"a.txt", 0, "h"⟩], [(0.2 : ℚ)], ["a.txt_0"]⟩ 3 =
        ⟨[['a']], [⟨"a.txt", 0, "h"⟩], [(0.2 : ℚ)], ["a.txt_0"]⟩)) :=
  ⟨rfl, search_fallback_gate [] ['q'] _ 3 rfl⟩

/-- C7 (code bug): with an empty scan (no *.pdf or *.txt files in the
documents folder) auto_index_documents returns the single empty list,
Sum.inl [], not a pair of sequences; the caller in src/app.py line 51
unpacks the result into (new_files, updated_files) and would raise
ValueError on this shape. -/
theorem auto_index_empty_scan_returns_bare_list :
    auto_index_documents ⟨[], []⟩ [] = (⟨[], []⟩, Sum.inl []) := rfl

/-- C9: a file whose extraction yields the empty string is skipped: the
indexing loop over pre ++ [f] ++ post yields exactly the state and
result lists of the loop over pre ++ post — no store mutation for f, f
recorded in neither new_files nor updated_files, and the remaining files
of the batch processed exactly as before. -/
theorem auto_index_skips_empty_extraction (pre post : List FileInfo) (f : FileInfo)
    (s : BotState) (new upd : List String) (hf : f.text = []) :
    auto_index_loop (pre ++ f :: post) s new upd =
      auto_index_loop (pre ++ post) s new upd := by
  induction pre generalizing s new upd with
  | nil =>
    rw [List.nil_append, List.nil_append, auto_index_loop]
    rw [step_of_empty_text s f new upd hf]
  | cons g pre ih =>
    rw [List.cons_append, List.cons_append, auto_index_loop, auto_index_loop]
    exact ih _ _ _

/-- Witness for auto_index_skips_empty_extraction: a lone file with
failed extraction leaves the empty state untouched. -/
theorem auto_index_skips_empty_extraction_witness :
    (⟨"bad.pdf", "h", []⟩ : FileInfo).text = [] ∧
    auto_index_loop ([] ++ (⟨"bad.pdf", "h", []⟩ : FileInfo) :: []) ⟨[], []⟩ [] [] =
      auto_index_loop ([] ++ []) ⟨[], []⟩ [] [] :=
  ⟨rfl, auto_index_skips_empty_extraction [] [] ⟨"bad.pdf", "h", []⟩ ⟨[], []⟩ [] [] rfl⟩

/-- C2: when the loop body processes a file that is recorded in
processed_files but whose fingerprint differs from the stored file_hash
(an UPDATED file, with nonempty extraction), it removes every record
whose source is that filename and inserts the new chunks, so that
afterwards the records with that source are exactly the new chunk
records, records of other sources are untouched, and the filename is
appended to updated_files. -/
theorem update_replaces_chunks (s : BotState) (f : FileInfo) (new upd : List String)
    (hmem : f.name ∈ s.processed_files)
    (hhash : get_stored_file_hash s.store f.name ≠ f.hash)
    (htext : f.text ≠ []) :
    (auto_index_step s f new upd).1.store.filter (fun c => c.source == f.name) =
      mkChunkRecs f.text f.name f.hash ∧
    (auto_index_step s f new upd).1.store.filter (fun c => !(c.source == f.name)) =
      s.store.filter (fun c => !(c.source == f.name)) ∧
    (auto_index_step s f new upd).2.2 = upd ++ [f.name] := by
  have hstep : auto_index_step s f new upd = (updState s f, new, upd ++ [f.name]) := by
    rw [auto_index_step, if_pos (Or.inr hhash), if_pos htext, if_pos hmem]
  rw [hstep]
  refine ⟨?_, ?_, rfl⟩
  · show (add_document (remove_document s.store f.name) f.text f.name f.hash).filter
      (fun c => c.source == f.name) = mkChunkRecs f.text f.name f.hash
    rw [add_document, List.filter_append]
    have h1 : (remove_document s.store f.name).filter (fun c => c.source == f.name) = [] := by
      rw [List.filter_eq_nil_iff]
      intro c hc
      simp [remove_document_source s.store f.name c hc]
    have h2 : (mkChunkRecs f.text f.name f.hash).filter (fun c => c.source == f.name) =
        mkChunkRecs f.text f.name f.hash := by
      rw [List.filter_eq_self]
      intro c hc
      simp [mkChunkRecs_source f.text f.name f.hash c hc]
    rw [h1, h2, List.nil_append]
  · show (add_document (remove_document s.store f.name) f.text f.name f.hash).filter
      (fun c => !(c.source == f.name)) = s.store.filter (fun c => !(c.source == f.name))
    rw [add_document, List.filter_append]
    have h1 : (mkChunkRecs f.text f.name f.hash).filter (fun c => !(c.source == f.name)) = [] := by
      rw [List.filter_eq_nil_iff]
      intro c hc
      simp [mkChunkRecs_source f.text f.name f.hash c hc]
    have h2 : (remove_document s.store f.name).filter (fun c => !(c.source == f.name)) =
        remove_document s.store f.name := by
      rw [List.filter_eq_self]
      intro c hc
      simp [remove_document_source s.store f.name c hc]
    rw [h1, h2, List.append_nil]
    rfl

/-- Witness for update_replaces_chunks: one stored chunk of a.txt at
hash h1, the file now fingerprints to h2. -/
theorem update_replaces_chunks_witness :
    "a.txt" ∈ (⟨[⟨"a.txt_0", ['o'], "a.txt", 0, "h1"⟩], ["a.txt"]⟩ : BotState).processed_files ∧
    get_stored_file_hash
        (⟨[⟨"a.txt_0", ['o'], "a.txt", 0, "h1"⟩], ["a.txt"]⟩ : BotState).store "a.txt" ≠ "h2" ∧
    (⟨"a.txt", "h2", ['n']⟩ : FileInfo).text ≠ [] ∧
    ((auto_index_step ⟨[⟨"a.txt_0", ['o'], "a.txt", 0, "h1"⟩], ["a.txt"]⟩
        ⟨"a.txt", "h2", ['n']⟩ [] []).1.store.filter (fun c => c.source == "a.txt") =
      mkChunkRecs ['n'] "a.txt" "h2" ∧
    (auto_index_step ⟨[⟨"a.txt_0", ['o'], "a.txt", 0, "h1"⟩], ["a.txt"]⟩
        ⟨"a.txt", "h2", ['n']⟩ [] []).1.store.filter (fun c => !(c.source == "a.txt")) =
      (⟨[⟨"a.txt_0", ['o'], "a.txt", 0, "h1"⟩], ["a.txt"]⟩ : BotState).store.filter
        (fun c => !(c.source == "a.txt")) ∧
    (auto_index_step ⟨[⟨"a.txt_0", ['o'], "a.txt", 0, "h1"⟩], ["a.txt"]⟩
        ⟨"a.txt", "h2", ['n']⟩ [] []).2.2 = [] ++ ["a.txt"]) :=
  ⟨by decide, by decide, by decide,
    update_replaces_chunks ⟨[⟨"a.txt_0", ['o'], "a.txt", 0, "h1"⟩], ["a.txt"]⟩
      ⟨"a.txt", "h2", ['n']⟩ [] [] (by decide) (by decide) (by decide)⟩

/-- C1 counterexample: when the scan finds no files at all, "no file has
changed" holds vacuously, yet the second run returns the bare empty list
Sum.inl [] (line 112) and not a pair of empty newFiles/updatedFiles
lists. -/
theorem auto_index_empty_scan_cex :
    (auto_index_documents ⟨[⟨"a.txt_0", ['x'], "a.txt", 0, "h"⟩], ["a.txt"]⟩ []).2 =
      Sum.inl [] ∧
    (Sum.inl ([] : List String) :
        List String ⊕ List String × List String) ≠ Sum.inr ([], []) :=
  ⟨rfl, by decide⟩

/-- C1 (amended): when the scan finds at least one file (with an empty
scan the function instead returns the bare empty list, same store), the
scanned names are distinct (they are basenames of one directory), and
processed_files agrees with the store sources (as established at
construction), re-running auto_index_documents on the unchanged corpus
leaves the entire state — every chunk id, text and metadata — identical
and reports Sum.inr ([], []). -/
theorem auto_index_idempotent (s₀ : BotState) (files : List FileInfo)
    (hcons : StoreConsistent s₀) (hnodup : (files.map FileInfo.name).Nodup)
    (hne : files ≠ []) :
    auto_index_documents (auto_index_documents s₀ files).1 files =
      ((auto_index_documents s₀ files).1, Sum.inr ([], [])) := by
  obtain ⟨-, -, hinert⟩ := auto_index_loop_good files s₀ [] [] hcons hnodup
  have h1 : (auto_index_documents s₀ files).1 = (auto_index_loop files s₀ [] []).1 := by
    rw [auto_index_documents, if_neg hne]
  rw [h1, auto_index_documents, if_neg hne]
  rw [loop_of_inert_all files (auto_index_loop files s₀ [] []).1 [] [] hinert]

/-- Witness for auto_index_idempotent: one new text file indexed from
the empty state, then re-scanned unchanged. -/
theorem auto_index_idempotent_witness :
    StoreConsistent ⟨[], []⟩ ∧
    (([⟨"a.txt", "h1", ['x']⟩] : List FileInfo).map FileInfo.name).Nodup ∧
    ([⟨"a.txt", "h1", ['x']⟩] : List FileInfo) ≠ [] ∧
    auto_index_documents
        (auto_index_documents ⟨[], []⟩ [⟨"a.txt", "h1", ['x']⟩]).1
        [⟨"a.txt", "h1", ['x']⟩] =
      ((auto_index_documents ⟨[], []⟩ [⟨"a.txt", "h1", ['x']⟩]).1, Sum.inr ([], [])) :=
  ⟨by simp [StoreConsistent], by decide, by decide,
    auto_index_idempotent ⟨[], []⟩ [⟨"a.txt", "h1", ['x']⟩]
      (by simp [StoreConsistent]) (by decide) (by decide)⟩

/-- C8 counterexample: chat joins the Python set of sources, whose
iteration order is unspecified (string hashing is randomized per
process); under the admissible reversed order, a retrieval drawing from
a.txt then b.txt produces the trailer "Sources: b.txt, a.txt", which is
not the first-appearance order the claim demands. -/
theorem chat_sources_order_cex :
    chat [] ['q']
        ⟨[['x'], ['y']], [⟨"a.txt", 0, "h"⟩, ⟨"b.txt", 0, "h"⟩],
          [], ["a.txt_0", "b.txt_0"]⟩
        (Except.ok "ANS") List.reverse = "ANS\n\nSources: b.txt, a.txt" ∧
    ¬ (("\n\nSources: a.txt, b.txt").data <:+
        (chat [] ['q']
          ⟨[['x'], ['y']], [⟨"a.txt", 0, "h"⟩, ⟨"b.txt", 0, "h"⟩],
            [], ["a.txt_0", "b.txt_0"]⟩
          (Except.ok "ANS") List.reverse).data) := by
  decide

/-- C8 (amended): when chat retrieves at least one chunk (with metadatas
parallel to documents) and the generator succeeds, the returned string
ends with "\n\nSources: " followed by the comma-join of the distinct
source filenames of the retrieved chunks (deduplicated at first
appearance by the set, sourcesOf), arranged in the iteration order of
the Python set — which need not be first-appearance order. -/
theorem chat_sources_trailer (store : List ChunkRec) (query : List Char)
    (semantic : QueryResult) (t : String) (setOrder : List String → List String)
    (hne : (search_documents store query semantic 3).documents ≠ [])
    (hpar : (search_documents store query semantic 3).documents.length ≤
      (search_documents store query semantic 3).metadatas.length) :
    chat store query semantic (Except.ok t) setOrder =
      t ++ "\n\nSources: " ++
        String.intercalate ", "
          (setOrder (sourcesOf (search_documents store query semantic 3))) := by
  rw [chat_appends_trailer store query semantic (Except.ok t) setOrder hne hpar]
  rfl

/-- Witness for chat_sources_trailer: a single retrieved chunk of
policy.txt and a successful generation. -/
theorem chat_sources_trailer_witness :
    (search_documents [] ['q']
        ⟨[['p']], [⟨"policy.txt", 0, "h"⟩], [], ["policy.txt_0"]⟩ 3).documents ≠ [] ∧
    (search_documents [] ['q']
        ⟨[['p']], [⟨"policy.txt", 0, "h"⟩], [], ["policy.txt_0"]⟩ 3).documents.length ≤
      (search_documents [] ['q']
        ⟨[['p']], [⟨"policy.txt", 0, "h"⟩], [], ["policy.txt_0"]⟩ 3).metadatas.length ∧
    chat [] ['q'] ⟨[['p']], [⟨"policy.txt", 0, "h"⟩], [], ["policy.txt_0"]⟩
        (Except.ok "ANS") id =
      "ANS" ++ "\n\nSources: " ++
        String.intercalate ", "
          (id (sourcesOf (search_documents [] ['q']
            ⟨[['p']], [⟨"policy.txt", 0, "h"⟩], [], ["policy.txt_0"]⟩ 3))) :=
  ⟨by decide, by decide,
    chat_sources_trailer [] ['q']
      ⟨[['p']], [⟨"policy.txt", 0, "h"⟩], [], ["policy.txt_0"]⟩ "ANS" id
      (by decide) (by decide)⟩

/-- C10: when chat retrieves at least one chunk (metadatas parallel to
documents) and the generator fails, the in-band error string
"Error generating response: {e}" is still suffixed with the Sources
trailer: the append at line 341 runs regardless of generation success. -/
theorem chat_error_keeps_trailer (store : List ChunkRec) (query : List Char)
    (semantic : QueryResult) (e : String) (setOrder : List String → List String)
    (hne : (search_documents store query semantic 3).documents ≠ [])
    (hpar : (search_documents store query semantic 3).documents.length ≤
      (search_documents store query semantic 3).metadatas.length) :
    chat store query semantic (Except.error e) setOrder =
      "Error generating response: " ++ e ++ "\n\nSources: " ++
        String.intercalate ", "
          (setOrder (sourcesOf (search_documents store query semantic 3))) := by
  rw [chat_appends_trailer store query semantic (Except.error e) setOrder hne hpar]
  rfl

/-- Witness for chat_error_keeps_trailer: one retrieved chunk, failing
generator. -/
theorem chat_error_keeps_trailer_witness :
    (search_documents [] ['q']
        ⟨[['p']], [⟨"policy.txt", 0, "h"⟩], [], ["policy.txt_0"]⟩ 3).documents ≠ [] ∧
    (search_documents [] ['q']
        ⟨[['p']], [⟨"policy.txt", 0, "h"⟩], [], ["policy.txt_0"]⟩ 3).documents.length ≤
      (search_documents [] ['q']
        ⟨[['p']], [⟨"policy.txt", 0, "h"⟩], [], ["policy.txt_0"]⟩ 3).metadatas.length ∧
    chat [] ['q'] ⟨[['p']], [⟨"policy.txt", 0, "h"⟩], [], ["policy.txt_0"]⟩
        (Except.error "boom") id =
      "Error generating response: " ++ "boom" ++ "\n\nSources: " ++
        String.intercalate ", "
          (id (sourcesOf (search_documents [] ['q']
            ⟨[['p']], [⟨"policy.txt", 0, "h"⟩], [], ["policy.txt_0"]⟩ 3))) :=
  ⟨by decide, by decide,
    chat_error_keeps_trailer [] ['q']
      ⟨[['p']], [⟨"policy.txt", 0, "h"⟩], [], ["policy.txt_0"]⟩ "boom" id
      (by decide) (by decide)⟩

end RAGChatbot
